import Mathlib

/-!
Verification of `youtube_subscriptions.py`.

Shallow embedding of the pure pipeline of the script: topic-URL label
derivation (`readable_topic`), grouping (`categorize_subscriptions`),
Markdown rendering (`render_markdown`), batching (`_chunked`, embedded as
`chunked`), and the error path of `main`.

Python strings are modelled as `List Char` (`Str`).  Library helpers used by
the script (`str.strip`, `str.replace`, `str.lower`, `urllib.parse.unquote`,
`urllib.parse.urlparse`) are modelled per their documented semantics:

* `str.strip()` strips whitespace characters from both ends; the whitespace
  set is modelled by the ASCII whitespace characters.
* `str.lower()` is modelled character-wise via `Char.toLower` (ASCII case
  map); the full Unicode case map is abstracted, which is faithful on the
  ASCII inputs the theorems instantiate.
* `urllib.parse.unquote` replaces each valid `%XY` escape (two hex digits)
  by the character with code `0xXY` and leaves any other `%` alone.  The
  recombination of several escaped bytes into one multi-byte UTF-8 code
  point is abstracted (escapes decode to code points 0–255); this does not
  affect the properties below, which concern emptiness, fixed points under
  decoding, and the handling of ASCII escapes.
* of `urllib.parse.urlparse` only the `.path` component is used by the
  script; `urlparsePath` models its extraction: drop the fragment, drop a
  leading valid scheme, drop a `//`-introduced netloc, drop the query, and
  drop the params of the last segment.
-/

namespace YT

/-- Python `str` is modelled as a list of characters. -/
abbrev Str := List Char

/-- Whitespace as stripped by Python `str.strip()` (ASCII whitespace). -/
def isPyWhitespace (c : Char) : Bool :=
  c == ' ' || c == '\t' || c == '\n' || c == '\r' || c == '\x0b' || c == '\x0c'

/-- Python `s.strip()`: remove leading and trailing whitespace. -/
def pyStrip (s : Str) : Str :=
  ((s.dropWhile isPyWhitespace).reverse.dropWhile isPyWhitespace).reverse

/-- Python `s.replace(old, new)` for single-character arguments. -/
def pyReplaceChar (old new : Char) (s : Str) : Str :=
  s.map (fun c => if c = old then new else c)

/-- Python `s.lower()`, modelled character-wise. -/
def pyLower (s : Str) : Str :=
  s.map Char.toLower

/-- Value of a hexadecimal digit, `none` for a non-digit.  Models the digits
accepted in a `%XY` escape by `urllib.parse.unquote`. -/
def hexDigit (c : Char) : Option Nat :=
  if '0' ≤ c ∧ c ≤ '9' then some (c.toNat - '0'.toNat)
  else if 'a' ≤ c ∧ c ≤ 'f' then some (c.toNat - 'a'.toNat + 10)
  else if 'A' ≤ c ∧ c ≤ 'F' then some (c.toNat - 'A'.toNat + 10)
  else none

/-- Model of `urllib.parse.unquote`: decode each `%XY` escape (`X`, `Y` hex
digits) to the character with code `16*X + Y`; a `%` not followed by two hex
digits is kept verbatim. -/
def unquote : Str → Str
  | [] => []
  | c :: c1 :: c2 :: rest =>
    if c = '%' then
      match hexDigit c1, hexDigit c2 with
      | some hi, some lo => Char.ofNat (16 * hi + lo) :: unquote rest
      | _, _ => '%' :: unquote (c1 :: c2 :: rest)
    else c :: unquote (c1 :: c2 :: rest)
  | c :: rest => c :: unquote rest

/-- Split at the first occurrence of `c`: returns the part before it and
`some` part after it, or `(s, none)` when `c` does not occur. -/
def splitOnFirst (c : Char) : Str → Str × Option Str
  | [] => ([], none)
  | x :: xs =>
    if x = c then ([], some xs)
    else
      let p := splitOnFirst c xs
      (x :: p.1, p.2)

/-- Split at the last occurrence of `c`: returns the part before it and
`some` part after it, or `(s, none)` when `c` does not occur.  Models
Python `s.rsplit(c, maxsplit=1)`. -/
def rsplitLast (c : Char) : Str → Str × Option Str
  | [] => ([], none)
  | x :: xs =>
    match rsplitLast c xs with
    | (a, some b) => (x :: a, some b)
    | (a, none) => if x = c then ([], some xs) else (x :: a, none)

/-- Characters allowed after the first character of a URL scheme. -/
def isSchemeChar (c : Char) : Bool :=
  c.isAlpha || c.isDigit || c == '+' || c == '-' || c == '.'

/-- Drop the fragment part (`#...`) of a URL. -/
def stripFragment (s : Str) : Str :=
  (splitOnFirst '#' s).1

/-- Drop the query part (`?...`) of a URL. -/
def stripQuery (s : Str) : Str :=
  (splitOnFirst '?' s).1

/-- Drop a leading scheme `sch:` when the text before the first `:` is a
valid scheme name (ASCII letter followed by scheme characters), as
`urlsplit` does. -/
def stripScheme (s : Str) : Str :=
  match splitOnFirst ':' s with
  | (pre, some rest) =>
    match pre with
    | [] => s
    | c0 :: cs => if c0.isAlpha && cs.all isSchemeChar then rest else s
  | (_, none) => s

/-- Drop a `//`-introduced network location: everything up to the first
`/`, `?` or `#` after the `//`. -/
def stripNetloc (s : Str) : Str :=
  match s with
  | '/' :: '/' :: rest =>
    rest.dropWhile (fun c => !(c == '/' || c == '?' || c == '#'))
  | _ => s

/-- Drop the params (`;...`) of the last path segment, as `urlparse` does
on the path produced by `urlsplit`. -/
def stripParams (p : Str) : Str :=
  match rsplitLast '/' p with
  | (pre, some seg) => pre ++ '/' :: (splitOnFirst ';' seg).1
  | (_, none) => (splitOnFirst ';' p).1

/-- The `.path` component of `urlparse(url)`. -/
def urlparsePath (url : Str) : Str :=
  stripParams (stripQuery (stripNetloc (stripScheme (stripFragment url))))

/-- Python `path.rsplit("/", maxsplit=1)[-1]`: the final path segment. -/
def lastSegment (p : Str) : Str :=
  match rsplitLast '/' p with
  | (_, some seg) => seg
  | (s, none) => s

/-- Embedding of `readable_topic`: final path segment of the parsed URL,
underscores replaced by spaces, then `unquote(label or "Uncategorized")`. -/
def readable_topic (topic_url : Str) : Str :=
  let path := urlparsePath topic_url
  let label := lastSegment path
  let label := pyReplaceChar '_' ' ' label
  unquote (if label = [] then "Uncategorized".toList else label)

/-- The `Subscription` dataclass of the script. -/
structure Subscription where
  channel_id : Str
  title : Str
  description : Str
  channel_url : Str
deriving DecidableEq, Repr

/-- The topic map built by `fetch_channel_topics`: a finite mapping from
channel id to the channel's list of topic-category URLs, modelled as an
association list (first binding of a key wins, as in a `dict`). -/
abbrev TopicMap := List (Str × List Str)

/-- `topics.get(channel_id)`: `some` the bound list, or `none` for a
missing key. -/
def getTopics (m : TopicMap) (k : Str) : Option (List Str) :=
  match m with
  | [] => none
  | (k2, v) :: rest => if k2 = k then some v else getTopics rest k

/-- The genre chosen for one subscription inside `categorize_subscriptions`:
`readable_topic(topic_urls[0])` when `topics.get(...)` is truthy (present
and non-empty), else `"Uncategorized"`. -/
def genreFor (topics : TopicMap) (s : Subscription) : Str :=
  match getTopics topics s.channel_id with
  | some (u :: _) => readable_topic u
  | _ => "Uncategorized".toList

/-- The grouping built by the categorizer: genre label to subscription
list, modelled as an association list in key-insertion order, as a Python
`defaultdict` iterates. -/
abbrev Grouping := List (Str × List Subscription)

/-- `grouped[genre].append(s)` on a `defaultdict(list)`: append to the
existing group, or add a new group at the end. -/
def appendGroup (g : Grouping) (key : Str) (s : Subscription) : Grouping :=
  match g with
  | [] => [(key, [s])]
  | (k, l) :: rest =>
    if k = key then (k, l ++ [s]) :: rest else (k, l) :: appendGroup rest key s

/-- Embedding of `categorize_subscriptions`: fold over the subscriptions,
appending each to the group of its genre. -/
def categorize_subscriptions (subs : List Subscription) (topics : TopicMap) : Grouping :=
  subs.foldl (fun grouped s => appendGroup grouped (genreFor topics s) s) []

/-- `grouped[genre]` on a `defaultdict(list)`: the bound group, or `[]`. -/
def getGroup (g : Grouping) (key : Str) : List Subscription :=
  match g with
  | [] => []
  | (k, l) :: rest => if k = key then l else getGroup rest key

/-- Lexicographic (code-point) `<=` on strings, as Python compares `str`. -/
def strLe : Str → Str → Bool
  | [], _ => true
  | _ :: _, [] => false
  | a :: as, b :: bs => if a < b then true else if a = b then strLe as bs else false

/-- The genre emission order of `render_markdown`: `sorted(grouped)`, the
keys in ascending lexicographic order (`List.mergeSort` models the stable
`sorted`). -/
def sortedKeys (g : Grouping) : List Str :=
  (g.map Prod.fst).mergeSort strLe

/-- The per-genre emission order of `render_markdown`:
`sorted(grouped[genre], key=lambda s: s.title.lower())`, a stable sort by
case-insensitive title. -/
def sortGroup (l : List Subscription) : List Subscription :=
  l.mergeSort (fun a b => strLe (pyLower a.title) (pyLower b.title))

/-- The line `render_markdown` appends for one subscription: the Markdown
link, with ` — <description>` appended when the stripped description with
newlines replaced by spaces is non-empty. -/
def renderLine (s : Subscription) : Str :=
  let description := pyReplaceChar '\n' ' ' (pyStrip s.description)
  if description ≠ [] then
    "- [".toList ++ s.title ++ "](".toList ++ s.channel_url ++ ") — ".toList ++ description
  else
    "- [".toList ++ s.title ++ "](".toList ++ s.channel_url ++ ")".toList

/-- `"\n".join(lines)`. -/
def joinLines (lines : List Str) : Str :=
  List.intercalate ['\n'] lines

/-- Embedding of `render_markdown`: header, then per genre (in sorted key
order) a `## genre` heading, a blank line, the sorted subscription lines
and a trailing blank line; finally `"\n".join(lines).strip() + "\n"`. -/
def render_markdown (grouped : Grouping) : Str :=
  let lines := ["# YouTube Subscriptions by Genre".toList, []]
  let lines := (sortedKeys grouped).foldl
    (fun lines genre =>
      lines ++ ["## ".toList ++ genre, []]
        ++ (sortGroup (getGroup grouped genre)).map renderLine ++ [[]])
    lines
  pyStrip (joinLines lines) ++ ['\n']

/-- Embedding of the generator `_chunked`: accumulate items, emit a chunk
each time it reaches `size`, and emit the non-empty remainder at the end.
`chunk` is the accumulator. -/
def chunkedAux (l : List Str) (size : Nat) (chunk : List Str) : List (List Str) :=
  match l with
  | [] => if chunk = [] then [] else [chunk]
  | x :: xs =>
    let c := chunk ++ [x]
    if c.length = size then c :: chunkedAux xs size [] else chunkedAux xs size c

/-- `_chunked(iterable, size)` from the script, starting from an empty
accumulator. -/
def chunked (l : List Str) (size : Nat) : List (List Str) :=
  chunkedAux l size []

/-- An error raised by the YouTube API client (`HttpError`); only its
presence matters to the pipeline model. -/
structure HttpError where
  code : Nat
deriving DecidableEq, Repr

/-- What `main` does after authentication: either exit with an error
message (`SystemExit`, no file written) or write the rendered Markdown and
report the subscription count. -/
inductive MainOutcome where
  | exited (msg : Str)
  | wrote (contents : Str) (count : Nat)
deriving DecidableEq, Repr

/-- Embedding of the fetch/transform/write part of `main`.  The two network
fetches are oracles: `fetchSubs` is the result of `fetch_subscriptions`,
`fetchTopics` the result of `fetch_channel_topics` on the fetched
subscriptions; an exception propagating out of either is an `Except.error`,
caught by the `try/except HttpError` block which raises `SystemExit` before
`write_output` is reached. -/
def mainPipeline (fetchSubs : Except HttpError (List Subscription))
    (fetchTopics : List Subscription → Except HttpError TopicMap) : MainOutcome :=
  match fetchSubs with
  | .error _ => .exited "YouTube API request failed".toList
  | .ok subs =>
    match fetchTopics subs with
    | .error _ => .exited "YouTube API request failed".toList
    | .ok topics =>
      .wrote (render_markdown (categorize_subscriptions subs topics)) subs.length

/-! Spec-side definitions, named after the spec's wording, used to compare
the embedded code against the specification text. -/

/-- Label derivation as §4.3 of the spec words it: take the final path
segment, replace underscores with spaces, percent-decode the result; if the
resulting string is empty, fall back to `"Uncategorized"`. -/
def readable_topic_spec (topic_url : Str) : Str :=
  let decoded := unquote (pyReplaceChar '_' ' ' (lastSegment (urlparsePath topic_url)))
  if decoded = [] then "Uncategorized".toList else decoded

mutual

/-- Collapsing every run of newlines into a single space, as the claim for
the Renderer words the description clean-up. -/
def collapseNewlineRuns : Str → Str
  | [] => []
  | c :: rest =>
    if c = '\n' then ' ' :: collapseAfterNewline rest else c :: collapseNewlineRuns rest

/-- State of `collapseNewlineRuns` inside a newline run: further newlines
of the run are dropped. -/
def collapseAfterNewline : Str → Str
  | [] => []
  | c :: rest =>
    if c = '\n' then collapseAfterNewline rest else c :: collapseNewlineRuns rest

end

/-- The rendered line as the claim for the Renderer words it, amended: the
suffix is appended iff the trimmed description with newline runs collapsed
is non-empty, and the appended text replaces each embedded newline by one
space. -/
def renderedLineSpec (s : Subscription) : Str :=
  let base := "- [".toList ++ s.title ++ "](".toList ++ s.channel_url ++ ")".toList
  if collapseNewlineRuns (pyStrip s.description) = [] then base
  else base ++ " — ".toList ++ pyReplaceChar '\n' ' ' (pyStrip s.description)

/-- Replace the binding of `k` (first occurrence) in a topic map; used to
state that only the first topic URL of a channel matters. -/
def setTopics (m : TopicMap) (k : Str) (v : List Str) : TopicMap :=
  match m with
  | [] => []
  | (k2, v2) :: rest =>
    if k2 = k then (k2, v) :: rest else (k2, v2) :: setTopics rest k v

/-- The example subscription of §8 of the spec, used to instantiate
theorems with hypotheses on a concrete input. -/
def sampleSub : Subscription :=
  { channel_id := "C1".toList
    title := "Foo Channel".toList
    description := "Fun stuff\nmore".toList
    channel_url := "https://www.youtube.com/channel/C1".toList }

/-- A subscription whose description holds two consecutive newlines. -/
def doubleNewlineSub : Subscription :=
  { channel_id := "C2".toList
    title := "T".toList
    description := "a\n\nb".toList
    channel_url := "U".toList }

/-- A topic map binding the example channel to two topic URLs. -/
def sampleTopics : TopicMap :=
  [("C1".toList,
    ["https://en.wikipedia.org/wiki/Music".toList,
     "https://en.wikipedia.org/wiki/Jazz".toList])]

/-! Sanity checks of the embedding on concrete inputs. -/

example : readable_topic "https://en.wikipedia.org/wiki/Music".toList = "Music".toList := by decide
example : readable_topic "https://en.wikipedia.org/wiki/Hip_hop_music".toList = "Hip hop music".toList := by decide
example : readable_topic "".toList = "Uncategorized".toList := by decide
example : readable_topic "https://en.wikipedia.org/wiki/%2541".toList = "%41".toList := by decide
example : unquote "%41".toList = "A".toList := by decide

/-! Lemmas about `unquote`. -/

/-- `unquote` never erases a non-empty input completely. -/
theorem unquote_ne_nil : ∀ {s : Str}, s ≠ [] → unquote s ≠ [] := by
  intro s hs
  match s with
  | [c] => simp [unquote]
  | [c, c1] => simp [unquote]
  | c :: c1 :: c2 :: rest =>
    simp only [unquote]
    split
    · split <;> simp
    · simp

/-- `unquote` maps exactly the empty string to the empty string. -/
theorem unquote_eq_nil_iff {s : Str} : unquote s = [] ↔ s = [] := by
  constructor
  · intro h
    by_contra hne
    exact unquote_ne_nil hne h
  · intro h
    subst h
    simp [unquote]

/-- A string without `%` is a fixed point of `unquote`. -/
theorem unquote_of_no_percent : ∀ {s : Str}, '%' ∉ s → unquote s = s := by
  intro s h
  match s with
  | [] => simp [unquote]
  | [c] => simp [unquote]
  | [c, c1] =>
    have hc : ¬ c = '%' := by simp at h; tauto
    have hc1 : ('%' : Char) ∉ [c1] := by simp at h ⊢; tauto
    simp [unquote, unquote_of_no_percent hc1]
  | c :: c1 :: c2 :: rest =>
    have hc : ¬ c = '%' := by simp at h; tauto
    have htl : ('%' : Char) ∉ c1 :: c2 :: rest := by simp at h ⊢; tauto
    simp only [unquote, if_neg hc]
    rw [unquote_of_no_percent htl]

/-- Decoding leaves the fallback label unchanged. -/
theorem unquote_uncategorized : unquote "Uncategorized".toList = "Uncategorized".toList := by
  decide

/-- A derived genre label is never the empty string. -/
theorem readable_topic_ne_nil (u : Str) : readable_topic u ≠ [] := by
  simp only [readable_topic]
  apply unquote_ne_nil
  split
  · decide
  · assumption

/-- The genre chosen for any subscription is never the empty string. -/
theorem genreFor_ne_nil (topics : TopicMap) (s : Subscription) : genreFor topics s ≠ [] := by
  unfold genreFor
  split
  · exact readable_topic_ne_nil _
  · decide

/-- A key of `appendGroup g k s` is a key of `g` or is `k`. -/
theorem mem_keys_appendGroup {g : Grouping} {k : Str} {s : Subscription} {genre : Str}
    (h : genre ∈ (appendGroup g k s).map Prod.fst) : genre ∈ g.map Prod.fst ∨ genre = k := by
  induction g with
  | nil =>
    simp [appendGroup] at h
    tauto
  | cons p rest ih =>
    obtain ⟨k2, l⟩ := p
    simp only [appendGroup] at h
    split at h
    · simp only [List.map_cons, List.mem_cons] at h ⊢
      tauto
    · simp only [List.map_cons, List.mem_cons] at h ⊢
      rcases h with h | h
      · tauto
      · rcases ih h with h2 | h2 <;> tauto

/-- Every key of the grouping built by the categorizer fold is a key of the
initial grouping or a genre of one of the subscriptions. -/
theorem mem_keys_categorize_fold {topics : TopicMap} {genre : Str} :
    ∀ (subs : List Subscription) (g : Grouping),
      genre ∈ ((subs.foldl (fun grouped s => appendGroup grouped (genreFor topics s) s) g).map
        Prod.fst) →
      genre ∈ g.map Prod.fst ∨ ∃ s ∈ subs, genre = genreFor topics s := by
  intro subs
  induction subs with
  | nil =>
    intro g h
    simp only [List.foldl_nil] at h
    exact Or.inl h
  | cons s ss ih =>
    intro g h
    simp only [List.foldl_cons] at h
    rcases ih _ h with h2 | h2
    · rcases mem_keys_appendGroup h2 with h3 | h3
      · tauto
      · exact Or.inr ⟨s, by simp, h3⟩
    · obtain ⟨s2, hmem, heq⟩ := h2
      exact Or.inr ⟨s2, by simp [hmem], heq⟩

/-! Lemmas about `chunked`. -/

/-- Concatenating the chunks of `chunkedAux` recovers the accumulator
followed by the input. -/
theorem join_chunkedAux (size : Nat) :
    ∀ (l : List Str) (chunk : List Str), (chunkedAux l size chunk).flatten = chunk ++ l := by
  intro l
  induction l with
  | nil =>
    intro chunk
    by_cases h : chunk = [] <;> simp [chunkedAux, h]
  | cons x xs ih =>
    intro chunk
    simp only [chunkedAux]
    split
    · simp [ih]
    · simp [ih]

/-- Every chunk produced by `chunkedAux` has length at most `size`, given
that the accumulator is still below `size`. -/
theorem length_le_chunkedAux {size : Nat} :
    ∀ (l : List Str) (chunk : List Str), chunk.length < size →
      ∀ c ∈ chunkedAux l size chunk, c.length ≤ size := by
  intro l
  induction l with
  | nil =>
    intro chunk hlt c hc
    by_cases h : chunk = [] <;> simp [chunkedAux, h] at hc
    subst hc
    omega
  | cons x xs ih =>
    intro chunk hlt c hc
    simp only [chunkedAux] at hc
    split at hc
    · rename_i hfull
      rw [List.mem_cons] at hc
      rcases hc with rfl | hc
      · exact Nat.le_of_eq hfull
      · refine ih [] ?_ c hc
        simp at hfull ⊢
        omega
    · refine ih (chunk ++ [x]) ?_ c hc
      rename_i hne
      simp at hne ⊢
      omega

/-- Every chunk except possibly the last has length exactly `size`. -/
theorem dropLast_chunkedAux {size : Nat} :
    ∀ (l : List Str) (chunk : List Str), chunk.length < size →
      ∀ c ∈ (chunkedAux l size chunk).dropLast, c.length = size := by
  intro l
  induction l with
  | nil =>
    intro chunk hlt c hc
    by_cases h : chunk = [] <;> simp [chunkedAux, h] at hc
  | cons x xs ih =>
    intro chunk hlt c hc
    simp only [chunkedAux] at hc
    split at hc
    · rename_i hfull
      cases hrest : chunkedAux xs size [] with
      | nil =>
        rw [hrest] at hc
        simp at hc
      | cons r rs =>
        rw [hrest] at hc
        simp only [List.dropLast_cons₂, List.mem_cons] at hc
        rcases hc with rfl | hc
        · exact hfull
        · refine ih [] ?_ c ?_
          · simp at hfull ⊢
            omega
          · rw [hrest]
            simpa using hc
    · refine ih (chunk ++ [x]) ?_ c hc
      rename_i hne
      simp at hne ⊢
      omega

/-- Take/drop characterization of `chunkedAux`. -/
theorem chunkedAux_eq_take_drop {size : Nat} :
    ∀ (l : List Str) (chunk : List Str), chunk.length < size → chunk ++ l ≠ [] →
      chunkedAux l size chunk =
        (chunk ++ l).take size :: chunkedAux ((chunk ++ l).drop size) size [] := by
  intro l
  induction l with
  | nil =>
    intro chunk hlt hne
    simp only [List.append_nil] at hne ⊢
    rw [List.take_of_length_le (by omega), List.drop_eq_nil_of_le (by omega)]
    simp [chunkedAux, hne]
  | cons x xs ih =>
    intro chunk hlt hne
    simp only [chunkedAux]
    split
    · rename_i hfull
      have harr : chunk ++ x :: xs = (chunk ++ [x]) ++ xs := by simp
      rw [harr, List.take_append_of_le_length (by omega),
        List.take_of_length_le (by omega),
        List.drop_append_of_le_length (by omega),
        List.drop_eq_nil_of_le (by omega)]
      simp
    · rename_i hne2
      have hlt2 : (chunk ++ [x]).length < size := by
        simp at hne2 ⊢
        omega
      have harr : chunk ++ x :: xs = (chunk ++ [x]) ++ xs := by simp
      rw [harr]
      exact ih (chunk ++ [x]) hlt2 (by simp)

/-- Unfolding step of `chunked` on a non-empty list. -/
theorem chunked_cons {size : Nat} (hsize : 0 < size) {l : List Str} (hne : l ≠ []) :
    chunked l size = l.take size :: chunked (l.drop size) size := by
  unfold chunked
  rw [chunkedAux_eq_take_drop l [] (by simpa using hsize) (by simpa using hne)]
  simp

/-- Collapsing newline runs erases nothing but newlines: the result is
empty only for the empty string. -/
theorem collapseNewlineRuns_ne_nil : ∀ {s : Str}, s ≠ [] → collapseNewlineRuns s ≠ [] := by
  intro s h
  match s with
  | c :: rest =>
    simp only [collapseNewlineRuns]
    split <;> simp

/-- Replacing characters never empties a non-empty string. -/
theorem pyReplaceChar_eq_nil_iff {old new : Char} {s : Str} :
    pyReplaceChar old new s = [] ↔ s = [] := by
  simp [pyReplaceChar]

/-- Lookup in the concatenation of two topic maps: the left map wins. -/
theorem getTopics_append (t t2 : TopicMap) (k : Str) :
    getTopics (t ++ t2) k =
      match getTopics t k with
      | some v => some v
      | none => getTopics t2 k := by
  induction t with
  | nil => simp [getTopics]
  | cons p rest ih =>
    obtain ⟨k2, v⟩ := p
    simp only [getTopics, List.cons_append]
    split <;> simp [ih]

/-- Lookup of the replaced key after `setTopics`, when the key is bound. -/
theorem getTopics_setTopics_self {t : TopicMap} {k : Str} {v0 : List Str}
    (h : getTopics t k = some v0) (v : List Str) :
    getTopics (setTopics t k v) k = some v := by
  induction t with
  | nil => simp [getTopics] at h
  | cons p rest ih =>
    obtain ⟨k2, v2⟩ := p
    simp only [getTopics, setTopics] at h ⊢
    split at h
    · rename_i he
      simp [getTopics, he]
    · rename_i he
      rw [if_neg he]
      simp only [getTopics]
      rw [if_neg he]
      exact ih h

/-- Lookup of any other key is unchanged by `setTopics`. -/
theorem getTopics_setTopics_other (t : TopicMap) {k k2 : Str} (hne : k2 ≠ k)
    (v2 : List Str) :
    getTopics (setTopics t k v2) k2 = getTopics t k2 := by
  induction t with
  | nil => simp [setTopics]
  | cons p rest ih =>
    obtain ⟨k3, v3⟩ := p
    simp only [setTopics]
    split
    · rename_i he
      simp only [getTopics]
      rw [if_neg (by rw [he]; exact fun h => hne h.symm), if_neg (by rw [he]; exact fun h => hne h.symm)]
    · simp only [getTopics]
      split
      · rfl
      · exact ih

/-- Two topic maps giving every subscription of the list the same genre
give the same grouping, whatever the accumulator. -/
theorem categorize_fold_congr {t1 t2 : TopicMap} :
    ∀ (subs : List Subscription), (∀ s ∈ subs, genreFor t1 s = genreFor t2 s) →
      ∀ g : Grouping,
        subs.foldl (fun grouped s => appendGroup grouped (genreFor t1 s) s) g =
          subs.foldl (fun grouped s => appendGroup grouped (genreFor t2 s) s) g := by
  intro subs
  induction subs with
  | nil =>
    intro _ g
    rfl
  | cons s ss ih =>
    intro h g
    simp only [List.foldl_cons]
    rw [h s (by simp)]
    exact ih (fun x hx => h x (by simp [hx])) _

/-- Two topic maps giving every subscription the same genre give the same
grouping. -/
theorem categorize_congr {t1 t2 : TopicMap} {subs : List Subscription}
    (h : ∀ s ∈ subs, genreFor t1 s = genreFor t2 s) :
    categorize_subscriptions subs t1 = categorize_subscriptions subs t2 :=
  categorize_fold_congr subs h []

/-- The appended subscription lands in the group of its key. -/
theorem mem_getGroup_appendGroup_self (g : Grouping) (k : Str) (s : Subscription) :
    s ∈ getGroup (appendGroup g k s) k := by
  induction g with
  | nil => simp [appendGroup, getGroup]
  | cons p rest ih =>
    obtain ⟨k2, l⟩ := p
    simp only [appendGroup]
    split
    · rename_i he
      simp [getGroup, he]
    · rename_i he
      simp only [getGroup]
      rw [if_neg he]
      exact ih

/-- `appendGroup` never removes a subscription from a group. -/
theorem mem_getGroup_appendGroup_mono {g : Grouping} {key : Str} {s0 : Subscription}
    (k : Str) (s : Subscription) (h : s0 ∈ getGroup g key) :
    s0 ∈ getGroup (appendGroup g k s) key := by
  induction g with
  | nil => simp [getGroup] at h
  | cons p rest ih =>
    obtain ⟨k2, l⟩ := p
    simp only [appendGroup]
    split
    · rename_i he
      simp only [getGroup] at h ⊢
      split
      · rename_i he2
        exact List.mem_append_left _ (by rwa [if_pos he2] at h)
      · rename_i he2
        rwa [if_neg he2] at h
    · rename_i he
      simp only [getGroup] at h ⊢
      split
      · rename_i he2
        rwa [if_pos he2] at h
      · rename_i he2
        rw [if_neg he2] at h
        exact ih h

/-- The categorizer fold never removes a subscription from a group. -/
theorem mem_getGroup_fold_mono (topics : TopicMap) :
    ∀ (subs : List Subscription) (g : Grouping) (key : Str) (s0 : Subscription),
      s0 ∈ getGroup g key →
      s0 ∈ getGroup
        (subs.foldl (fun grouped x => appendGroup grouped (genreFor topics x) x) g) key := by
  intro subs
  induction subs with
  | nil =>
    intro g key s0 h
    exact h
  | cons x xs ih =>
    intro g key s0 h
    exact ih _ _ _ (mem_getGroup_appendGroup_mono _ _ h)

/-- Every subscription of the input ends up in the group of its genre. -/
theorem mem_getGroup_categorize_fold (topics : TopicMap) :
    ∀ (subs : List Subscription) (g : Grouping) (s : Subscription), s ∈ subs →
      s ∈ getGroup
        (subs.foldl (fun grouped x => appendGroup grouped (genreFor topics x) x) g)
        (genreFor topics s) := by
  intro subs
  induction subs with
  | nil =>
    intro g s h
    simp at h
  | cons x xs ih =>
    intro g s h
    simp only [List.foldl_cons]
    rcases List.mem_cons.mp h with rfl | h2
    · exact mem_getGroup_fold_mono topics xs _ _ _ (mem_getGroup_appendGroup_self g _ s)
    · exact ih _ s h2

/-- Appending a subscription to a grouping adds exactly that subscription
to the multiset of grouped subscriptions. -/
theorem flatten_snd_appendGroup (g : Grouping) (k : Str) (s : Subscription) :
    ((appendGroup g k s).map Prod.snd).flatten.Perm (s :: (g.map Prod.snd).flatten) := by
  induction g with
  | nil => simp [appendGroup]
  | cons p rest ih =>
    obtain ⟨k2, l⟩ := p
    simp only [appendGroup]
    split
    · simp only [List.map_cons, List.flatten_cons, List.append_assoc, List.singleton_append]
      exact List.perm_middle
    · simp only [List.map_cons, List.flatten_cons]
      exact (ih.append_left l).trans List.perm_middle

/-- The categorizer fold extends the grouped multiset by the processed
subscriptions. -/
theorem flatten_categorize_fold (topics : TopicMap) :
    ∀ (subs : List Subscription) (g : Grouping),
      ((subs.foldl (fun grouped s => appendGroup grouped (genreFor topics s) s) g).map
        Prod.snd).flatten.Perm ((g.map Prod.snd).flatten ++ subs) := by
  intro subs
  induction subs with
  | nil =>
    intro g
    simp
  | cons s ss ih =>
    intro g
    simp only [List.foldl_cons]
    refine (ih _).trans ?_
    refine ((flatten_snd_appendGroup g _ s).append_right ss).trans ?_
    exact List.perm_middle.symm

/-- `strLe` is reflexive. -/
theorem strLe_refl (s : Str) : strLe s s = true := by
  induction s with
  | nil => rfl
  | cons c cs ih => simp [strLe, ih]

/-- Unfolding `strLe` on two non-empty strings. -/
theorem strLe_cons_iff {x y : Char} {xs ys : Str} :
    strLe (x :: xs) (y :: ys) = true ↔ x < y ∨ (x = y ∧ strLe xs ys = true) := by
  simp only [strLe]
  by_cases h1 : x < y
  · simp [h1]
  · by_cases h2 : x = y
    · simp [h1, h2]
    · simp [h1, h2]

/-- `strLe` is total. -/
theorem strLe_total (a b : Str) : strLe a b || strLe b a := by
  induction a generalizing b with
  | nil => simp [strLe]
  | cons x xs ih =>
    cases b with
    | nil => simp [strLe]
    | cons y ys =>
      rcases lt_trichotomy x y with h | h | h
      · simp [strLe_cons_iff, h]
      · subst h
        have := ih ys
        simp only [Bool.or_eq_true] at this
        rcases this with h2 | h2 <;> simp [strLe_cons_iff, h2]
      · simp [strLe_cons_iff, h]

/-- `strLe` is transitive. -/
theorem strLe_trans : ∀ (a b c : Str), strLe a b → strLe b c → strLe a c := by
  intro a
  induction a with
  | nil =>
    intro b c _ _
    rfl
  | cons x xs ih =>
    intro b c hab hbc
    cases b with
    | nil => simp [strLe] at hab
    | cons y ys =>
      cases c with
      | nil => simp [strLe] at hbc
      | cons z zs =>
        rw [strLe_cons_iff] at hab hbc ⊢
        rcases hab with h1 | ⟨rfl, h1⟩
        · rcases hbc with h2 | ⟨rfl, h2⟩
          · exact Or.inl (lt_trans h1 h2)
          · exact Or.inl h1
        · rcases hbc with h2 | ⟨rfl, h2⟩
          · exact Or.inl h2
          · exact Or.inr ⟨rfl, ih ys zs h1 h2⟩

/-- The comparison used by the per-genre sort of the renderer. -/
theorem titleLe_trans (a b c : Subscription)
    (h1 : strLe (pyLower a.title) (pyLower b.title))
    (h2 : strLe (pyLower b.title) (pyLower c.title)) :
    strLe (pyLower a.title) (pyLower c.title) :=
  strLe_trans _ _ _ h1 h2

/-- Totality of the per-genre comparison. -/
theorem titleLe_total (a b : Subscription) :
    strLe (pyLower a.title) (pyLower b.title) || strLe (pyLower b.title) (pyLower a.title) :=
  strLe_total _ _

/-- Stability of the per-genre sort: the subscriptions with any given
case-folded title keep their original relative order. -/
theorem sortGroup_filter (l : List Subscription) (k : Str) :
    (sortGroup l).filter (fun s => pyLower s.title == k) =
      l.filter (fun s => pyLower s.title == k) := by
  unfold sortGroup
  have hmemc : ∀ s ∈ l.filter (fun s => pyLower s.title == k), pyLower s.title = k := by
    intro s hs
    simpa using List.of_mem_filter hs
  have hc_pairwise :
      (l.filter (fun s => pyLower s.title == k)).Pairwise
        (fun a b => strLe (pyLower a.title) (pyLower b.title)) := by
    apply List.pairwise_of_forall_mem_list
    intro a ha b hb
    rw [hmemc a ha, hmemc b hb]
    exact strLe_refl k
  have hsub := List.sublist_mergeSort titleLe_trans titleLe_total hc_pairwise
    (List.filter_sublist l)
  have hfil : (l.filter (fun s => pyLower s.title == k)).filter
      (fun s => pyLower s.title == k) = l.filter (fun s => pyLower s.title == k) :=
    List.filter_eq_self.mpr (fun a ha => by simpa using hmemc a ha)
  have hsub2 := hsub.filter (fun s => pyLower s.title == k)
  rw [hfil] at hsub2
  have hperm := (List.mergeSort_perm l
    (fun a b => strLe (pyLower a.title) (pyLower b.title))).filter
    (fun s => pyLower s.title == k)
  exact (hsub2.eq_of_length hperm.length_eq.symm).symm

/-! The claims. -/

/-- C1 (amended): every rendered subscription line is the Markdown link
`- [title](channel_url)`; the ` — <description>` suffix is appended iff
the description, trimmed and with newline runs collapsed, is non-empty,
and in the suffix each embedded newline of the trimmed description is
replaced by a single space, so consecutive newlines render as consecutive
spaces. -/
theorem C1_rendered_line (s : Subscription) : renderLine s = renderedLineSpec s := by
  unfold renderLine renderedLineSpec
  by_cases h : pyStrip s.description = []
  · rw [h]
    simp [collapseNewlineRuns, pyReplaceChar]
  · have h1 : pyReplaceChar '\n' ' ' (pyStrip s.description) ≠ [] := by
      simpa [pyReplaceChar_eq_nil_iff] using h
    have h2 : collapseNewlineRuns (pyStrip s.description) ≠ [] :=
      collapseNewlineRuns_ne_nil h
    simp [h1, h2]

/-- C1 counterexample: a description holding two consecutive newlines
renders with two spaces between the surrounding words, not the single
space the claim requires. -/
theorem C1_counterexample :
    renderLine doubleNewlineSub = "- [T](U) — a  b".toList ∧
      renderLine doubleNewlineSub ≠ "- [T](U) — a b".toList := by
  constructor
  · decide
  · decide

/-- C2 (amended): a genre label derived by `readable_topic` that contains
no `%` character is a fixed point of percent-decoding. -/
theorem C2_label_decode_fixed_point (u : Str) (h : '%' ∉ readable_topic u) :
    unquote (readable_topic u) = readable_topic u :=
  unquote_of_no_percent h

/-- C2 witness: a concrete topic URL whose derived label is percent-free
and hence a fixed point of decoding. -/
theorem C2_label_decode_fixed_point_witness :
    '%' ∉ readable_topic "https://en.wikipedia.org/wiki/Music".toList ∧
      unquote (readable_topic "https://en.wikipedia.org/wiki/Music".toList) =
        readable_topic "https://en.wikipedia.org/wiki/Music".toList :=
  ⟨by decide, C2_label_decode_fixed_point _ (by decide)⟩

/-- C2 counterexample: the topic URL whose final segment is `%2541`
derives the label `%41`, which percent-decoding changes to `A`; so the
derived label is not always a fixed point of percent-decoding. -/
theorem C2_counterexample :
    readable_topic "https://en.wikipedia.org/wiki/%2541".toList = "%41".toList ∧
      unquote (readable_topic "https://en.wikipedia.org/wiki/%2541".toList) ≠
        readable_topic "https://en.wikipedia.org/wiki/%2541".toList := by
  constructor
  · decide
  · decide

/-- C3: `readable_topic` computes the label by taking the final path
segment, replacing underscores with spaces and percent-decoding, and falls
back to the literal `"Uncategorized"` exactly when that three-step string
is empty (`readable_topic_spec` is that description verbatim). -/
theorem C3_label_derivation (topic_url : Str) :
    readable_topic topic_url = readable_topic_spec topic_url := by
  by_cases h : pyReplaceChar '_' ' ' (lastSegment (urlparsePath topic_url)) = []
  · simp [readable_topic, readable_topic_spec, h, unquote_uncategorized, unquote]
  · simp [readable_topic, readable_topic_spec, h, unquote_ne_nil h]

/-- C7: the renderer emits genres in ascending lexicographic label order
(a permutation of the grouping's keys), and within each genre emits
subscriptions in ascending case-insensitive title order, stably: the
subscriptions sharing any case-folded title keep their original relative
order. -/
theorem C7_render_order (grouped : Grouping) (l : List Subscription) (k : Str) :
    (sortedKeys grouped).Pairwise (fun a b => strLe a b = true) ∧
      (sortedKeys grouped).Perm (grouped.map Prod.fst) ∧
      (sortGroup l).Pairwise
        (fun a b => strLe (pyLower a.title) (pyLower b.title) = true) ∧
      (sortGroup l).Perm l ∧
      (sortGroup l).filter (fun s => pyLower s.title == k) =
        l.filter (fun s => pyLower s.title == k) := by
  unfold sortedKeys sortGroup
  refine ⟨?_, ?_, ?_, ?_, sortGroup_filter l k⟩
  · exact List.sorted_mergeSort strLe_trans strLe_total _
  · exact List.mergeSort_perm _ _
  · exact List.sorted_mergeSort titleLe_trans titleLe_total _
  · exact List.mergeSort_perm _ _

/-- C8: the Topic Fetcher's batching splits the channel-id list into
consecutive batches, each of size at most 50, all but possibly the last of
size exactly 50; 120 ids yield batches of sizes 50, 50, 20. -/
theorem C8_batching (l : List Str) :
    (chunked l 50).flatten = l ∧
      (∀ c ∈ chunked l 50, c.length ≤ 50) ∧
      (∀ c ∈ (chunked l 50).dropLast, c.length = 50) ∧
      (l.length = 120 → (chunked l 50).map List.length = [50, 50, 20]) := by
  refine ⟨by simpa using join_chunkedAux 50 l [],
    length_le_chunkedAux l [] (by simp), dropLast_chunkedAux l [] (by simp), ?_⟩
  intro h120
  have hne1 : l ≠ [] := by
    intro h
    rw [h] at h120
    simp at h120
  rw [chunked_cons (by omega) hne1]
  have hd1 : (l.drop 50).length = 70 := by simp [h120]
  have hne2 : l.drop 50 ≠ [] := by
    intro h
    rw [h] at hd1
    simp at hd1
  rw [chunked_cons (by omega) hne2]
  have hd2 : ((l.drop 50).drop 50).length = 20 := by simp [h120]
  have hne3 : (l.drop 50).drop 50 ≠ [] := by
    intro h
    rw [h] at hd2
    simp at hd2
  rw [chunked_cons (by omega) hne3]
  have ht3 : ((l.drop 50).drop 50).take 50 = (l.drop 50).drop 50 :=
    List.take_of_length_le (by omega)
  have hd3 : ((l.drop 50).drop 50).drop 50 = [] :=
    List.drop_eq_nil_of_le (by omega)
  rw [ht3, hd3]
  simp [chunked, chunkedAux, List.length_take, h120, hd1, hd2]

/-- C8 witness: 120 concrete channel ids produce batches of sizes
50, 50, 20. -/
theorem C8_batching_witness :
    (chunked (List.replicate 120 "UC".toList) 50).map List.length = [50, 50, 20] :=
  (C8_batching _).2.2.2 (by simp)

/-- C10: `readable_topic` always returns a non-empty string, and every
genre label keying the grouping of `categorize_subscriptions` is
non-empty. -/
theorem C10_labels_nonempty :
    (∀ u : Str, readable_topic u ≠ []) ∧
      ∀ (subs : List Subscription) (topics : TopicMap) (genre : Str),
        genre ∈ (categorize_subscriptions subs topics).map Prod.fst → genre ≠ [] := by
  refine ⟨readable_topic_ne_nil, ?_⟩
  intro subs topics genre hmem
  simp only [categorize_subscriptions] at hmem
  rcases mem_keys_categorize_fold subs [] hmem with h | ⟨s, _, rfl⟩
  · simp at h
  · exact genreFor_ne_nil topics s

/-- C4: a channel id absent from the topic map is treated exactly like one
bound to the empty list, and such a subscription is grouped under the
literal label `"Uncategorized"`. -/
theorem C4_absent_key (subs : List Subscription) (t : TopicMap) (cid : Str)
    (h : getTopics t cid = none) :
    categorize_subscriptions subs t = categorize_subscriptions subs (t ++ [(cid, [])]) ∧
      ∀ s ∈ subs, s.channel_id = cid →
        s ∈ getGroup (categorize_subscriptions subs t) "Uncategorized".toList := by
  constructor
  · apply categorize_congr
    intro s _
    unfold genreFor
    rw [getTopics_append]
    cases hg : getTopics t s.channel_id with
    | some v => rfl
    | none =>
      simp only [getTopics]
      by_cases hcid : cid = s.channel_id
      · rw [if_pos hcid]
      · rw [if_neg hcid]
  · intro s hs hcid
    have hgenre : genreFor t s = "Uncategorized".toList := by
      unfold genreFor
      rw [hcid, h]
    have hmem := mem_getGroup_categorize_fold t subs [] s hs
    rw [hgenre] at hmem
    simpa only [categorize_subscriptions] using hmem

/-- C4 witness: a concrete channel id with no topic-map entry lands in the
`"Uncategorized"` group. -/
theorem C4_absent_key_witness :
    getTopics [] "C1".toList = none ∧
      sampleSub ∈ getGroup (categorize_subscriptions [sampleSub] [])
        "Uncategorized".toList :=
  ⟨rfl, (C4_absent_key [sampleSub] [] "C1".toList rfl).2 sampleSub (by decide) (by decide)⟩

/-- C5: the genre of a channel with a non-empty topic list depends only on
the first URL: replacing all later URLs leaves the grouping unchanged. -/
theorem C5_first_url_authoritative (subs : List Subscription) (t : TopicMap) (cid u : Str)
    (rest rest2 : List Str) (h : getTopics t cid = some (u :: rest)) :
    categorize_subscriptions subs (setTopics t cid (u :: rest2)) =
      categorize_subscriptions subs t := by
  apply categorize_congr
  intro s _
  unfold genreFor
  by_cases hc : s.channel_id = cid
  · rw [hc, getTopics_setTopics_self h (u :: rest2), h]
  · rw [getTopics_setTopics_other t hc (u :: rest2)]

/-- C5 witness: replacing the second topic URL of the example channel does
not change the grouping. -/
theorem C5_first_url_authoritative_witness :
    categorize_subscriptions [sampleSub]
        (setTopics sampleTopics "C1".toList
          ("https://en.wikipedia.org/wiki/Music".toList ::
            ["https://example.org/Other".toList])) =
      categorize_subscriptions [sampleSub] sampleTopics :=
  C5_first_url_authoritative [sampleSub] sampleTopics "C1".toList
    "https://en.wikipedia.org/wiki/Music".toList
    ["https://en.wikipedia.org/wiki/Jazz".toList]
    ["https://example.org/Other".toList] (by decide)

/-- C6: the grouping is a partition of the input: the concatenation of the
groups is a permutation of the input list, and the group lengths sum to the
input length. -/
theorem C6_partition (subs : List Subscription) (topics : TopicMap) :
    ((categorize_subscriptions subs topics).map Prod.snd).flatten.Perm subs ∧
      ((categorize_subscriptions subs topics).map (fun p => p.2.length)).sum =
        subs.length := by
  have h := flatten_categorize_fold topics subs []
  simp only [List.map_nil, List.flatten_nil, List.nil_append] at h
  constructor
  · simpa only [categorize_subscriptions] using h
  · have hlen := h.length_eq
    rw [List.length_flatten] at hlen
    simpa [categorize_subscriptions, List.map_map, Function.comp] using hlen

/-- C9: if fetching subscriptions or fetching channel topics fails with an
API error, the pipeline exits without writing any output. -/
theorem C9_no_write_on_error (fs : Except HttpError (List Subscription))
    (ft : List Subscription → Except HttpError TopicMap)
    (h : (∃ e, fs = .error e) ∨ ∃ subs e, fs = .ok subs ∧ ft subs = .error e) :
    ∀ (contents : Str) (count : Nat), mainPipeline fs ft ≠ .wrote contents count := by
  intro contents count
  rcases h with ⟨e, rfl⟩ | ⟨subs, e, rfl, herr⟩
  · simp [mainPipeline]
  · simp [mainPipeline, herr]

/-- C9 witness: a failing subscription fetch never reaches the writer. -/
theorem C9_no_write_on_error_witness :
    mainPipeline (.error ⟨403⟩) (fun _ => .ok []) ≠ .wrote [] 0 :=
  C9_no_write_on_error _ _ (Or.inl ⟨⟨403⟩, rfl⟩) [] 0

/-- C10 witness: a concrete grouping whose (only) key is non-empty. -/
theorem C10_labels_nonempty_witness :
    "Uncategorized".toList ∈ (categorize_subscriptions [sampleSub] []).map Prod.fst ∧
      "Uncategorized".toList ≠ ([] : Str) :=
  ⟨by decide, C10_labels_nonempty.2 [sampleSub] [] _ (by decide)⟩

end YT
